import Mathlib

/-!
Verification of the NutriScan local persistence and analysis-gateway layer.

The definitions below are a shallow embedding of the TypeScript services
`searchHistoryService` (SearchHistoryService), `foodLogService` (FoodLogService)
and `geminiService` (GeminiService).  JavaScript numbers are modelled as
rationals (binary64 values are rationals; where a property depends on the
rounding of an arithmetic operation, double addition is modelled explicitly
via `roundToDouble53`), `Date.now()` timestamps as integers (milliseconds),
persisted
AsyncStorage collections as Lean lists, and the stable `Array.prototype.sort`
as a stable insertion sort (stable sorts by a fixed key agree on all inputs).
-/

namespace NutriScan

/-- Three-level categorical rating used by the renal assessment. -/
inductive Level where
  | low : Level
  | moderate : Level
  | high : Level
deriving DecidableEq

/-- Overall safety tag of the renal assessment. -/
inductive SafetyFlag where
  | safe : SafetyFlag
  | caution : SafetyFlag
  | avoid : SafetyFlag
deriving DecidableEq

/-- Macro nutrient breakdown (protein/carbs/fat/fiber/sugar). -/
structure Macros where
  protein : ℚ
  carbs : ℚ
  fat : ℚ
  fiber : ℚ
  sugar : ℚ
deriving DecidableEq

/-- The eleven-value vitamin panel. -/
structure Vitamins where
  vitaminA : ℚ
  vitaminC : ℚ
  vitaminD : ℚ
  vitaminE : ℚ
  vitaminK : ℚ
  vitaminB1 : ℚ
  vitaminB2 : ℚ
  vitaminB3 : ℚ
  vitaminB6 : ℚ
  vitaminB12 : ℚ
  folate : ℚ
deriving DecidableEq

/-- The eight-value mineral panel. -/
structure Minerals where
  calcium : ℚ
  iron : ℚ
  magnesium : ℚ
  phosphorus : ℚ
  potassium : ℚ
  sodium : ℚ
  zinc : ℚ
  selenium : ℚ
deriving DecidableEq

/-- Optional antioxidant information of the renal assessment. -/
structure Antioxidants where
  hasAntioxidants : Bool
  types : List String
  kidneyBenefits : List String
deriving DecidableEq

/-- Optional additional trace minerals of the renal assessment. -/
structure AdditionalMinerals where
  oxalates : ℚ
  purines : ℚ
  chloride : ℚ
  sulfur : ℚ
deriving DecidableEq

/-- Optional kidney-specific metadata of the renal assessment. -/
structure KidneySpecificInfo where
  isDialysisFriendly : Bool
  ckdStageRecommendations : String
  fluidContent : ℚ
  acidLoad : Level
deriving DecidableEq

/-- Renal diet assessment (`renalDiet` object of the TypeScript types). -/
structure RenalDiet where
  suitableForKidneyDisease : Bool
  overallSafetyFlag : SafetyFlag
  primaryConcerns : List String
  potassiumLevel : Level
  phosphorusLevel : Level
  sodiumLevel : Level
  proteinLevel : Level
  recommendation : String
  warnings : List String
  modifications : String
  antioxidants : Option Antioxidants
  recommendedPortionGrams : Option ℚ
  additionalMinerals : Option AdditionalMinerals
  kidneySpecificInfo : Option KidneySpecificInfo
deriving DecidableEq

/-- The nested `nutritionData` object of a `SearchHistoryItem`. -/
structure NutritionInfo where
  macros : Macros
  vitamins : Vitamins
  minerals : Minerals
  renalDiet : RenalDiet
deriving DecidableEq

/-- A name/amount/dailyValue triple of the denormalized summary. -/
structure NamedAmount where
  name : String
  amount : String
  dailyValue : String
deriving DecidableEq

/-- The denormalized `summary` object of a `SearchHistoryItem`.  The migration
code reads `summary.warnings` and `summary.tips` defensively
(`item.summary.warnings || []`, `item.summary.tips?.join(". ")`), so both are
modelled as optional. -/
structure HistorySummary where
  macros : Macros
  vitamins : List NamedAmount
  minerals : List NamedAmount
  warnings : Option (List String)
  tips : Option (List String)
deriving DecidableEq

/-- A persisted search-history entry (`SearchHistoryItem`).  `nutritionData`
and `summary` are optional because legacy persisted JSON may lack either
(the migration in `getSearchHistory` checks both at runtime). -/
structure SearchHistoryItem where
  id : String
  timestamp : ℤ
  imageUri : String
  weight : ℚ
  foodName : String
  calories : ℚ
  confidence : Option ℚ
  searchText : Option String
  nutritionData : Option NutritionInfo
  summary : Option HistorySummary
deriving DecidableEq

/-- All-zero vitamin panel used by the legacy migration. -/
def zeroVitamins : Vitamins :=
  ⟨0, 0, 0, 0, 0, 0, 0, 0, 0, 0, 0⟩

/-- All-zero mineral panel used by the legacy migration. -/
def zeroMinerals : Minerals :=
  ⟨0, 0, 0, 0, 0, 0, 0, 0⟩

/-- The migration note written into the recommendation text of migrated
legacy entries. -/
def migratedRecommendation : String :=
  "Migrated from older data format - detailed information may be limited"

/-- The placeholder nutrition record synthesized for a legacy entry with
summary `s` (body of the migration branch of `getSearchHistory`). -/
def legacyNutritionInfo (s : HistorySummary) : NutritionInfo where
  macros := s.macros
  vitamins := zeroVitamins
  minerals := zeroMinerals
  renalDiet :=
    { suitableForKidneyDisease := true
      overallSafetyFlag := SafetyFlag.caution
      primaryConcerns := []
      potassiumLevel := Level.low
      phosphorusLevel := Level.low
      sodiumLevel := Level.low
      proteinLevel := Level.moderate
      recommendation := migratedRecommendation
      warnings := s.warnings.getD []
      modifications := String.intercalate ". " (s.tips.getD [])
      antioxidants := none
      recommendedPortionGrams := none
      additionalMinerals := none
      kidneySpecificInfo := none }

/-- Read-time migration of one entry: an item with a summary but no full
nutrition record gets the placeholder-filled record; everything else is
returned unchanged (`getSearchHistory`, migration map). -/
def migrateItem (item : SearchHistoryItem) : SearchHistoryItem :=
  match item.nutritionData, item.summary with
  | none, some s => { item with nutritionData := some (legacyNutritionInfo s) }
  | _, _ => item

/-- Stable descending insertion keyed by `key`: `x` is placed before the
first element whose key is not larger, so elements with equal keys keep
their relative order, exactly like the stable `Array.prototype.sort`. -/
def insertDescByKey {α κ : Type} [LinearOrder κ] (key : α → κ) (x : α) :
    List α → List α
  | [] => [x]
  | y :: ys =>
      if key y ≤ key x then x :: y :: ys else y :: insertDescByKey key x ys

/-- Stable descending sort keyed by `key`; models
`array.sort((a, b) => keyB - keyA)` of the sources (stable in JavaScript). -/
def sortDescByKey {α κ : Type} [LinearOrder κ] (key : α → κ) :
    List α → List α
  | [] => []
  | x :: xs => insertDescByKey key x (sortDescByKey key xs)

/-- `SearchHistoryService.getSearchHistory` as a function of the persisted
list: migrate legacy entries, then sort by timestamp, most recent first. -/
def getSearchHistory (store : List SearchHistoryItem) : List SearchHistoryItem :=
  sortDescByKey (fun i => i.timestamp) (store.map migrateItem)

/-- `SearchHistoryService.saveSearch` as a function of the persisted list:
prepend the new item (already carrying its fresh id and timestamp) to the
re-read history and keep only the first 50. -/
def saveSearch (newItem : SearchHistoryItem) (store : List SearchHistoryItem) :
    List SearchHistoryItem :=
  (newItem :: getSearchHistory store).take 50

/-- Run a sequence of `saveSearch` calls, first list element saved first. -/
def saveAll : List SearchHistoryItem → List SearchHistoryItem → List SearchHistoryItem
  | [], store => store
  | n :: rest, store => saveAll rest (saveSearch n store)

/-- `SearchHistoryService.deleteSearchItem` as a function of the persisted
list: re-read (migrating and sorting), drop the matching id, persist. -/
def deleteSearchItem (id : String) (store : List SearchHistoryItem) :
    List SearchHistoryItem :=
  (getSearchHistory store).filter (fun item => item.id ≠ id)

/-- One persisted food-log entry (`FoodLogEntry`).  `calories` is modelled as
optional because the aggregation code guards it with `entry.calories || 0`
while the other nutrient fields are used unguarded. -/
structure FoodLogEntry where
  id : String
  date : String
  foodName : String
  weight : ℚ
  calories : Option ℚ
  potassium : ℚ
  phosphorus : ℚ
  sodium : ℚ
  nutritionDataId : Option String
  customNutritionData : Option NutritionInfo
  timestamp : ℤ
deriving DecidableEq

/-- Per-day elementwise nutrient totals (`totalNutrients` of `DailyFoodLog`). -/
structure NutrientTotals where
  weight : ℚ
  calories : ℚ
  potassium : ℚ
  phosphorus : ℚ
  sodium : ℚ
deriving DecidableEq

/-- The zero accumulator of the per-day reduce. -/
def zeroTotals : NutrientTotals := ⟨0, 0, 0, 0, 0⟩

/-- One step of the per-day reduce in `getDailyFoodLogs` with exact
rational addition: the idealized (infinite-precision) summation.  The
program's JavaScript addition rounds every step to binary64; that faithful
variant is `addEntryTotalsFP`.  A missing calories field is counted as 0. -/
def addEntryTotals (t : NutrientTotals) (e : FoodLogEntry) : NutrientTotals where
  weight := t.weight + e.weight
  calories := t.calories + e.calories.getD 0
  potassium := t.potassium + e.potassium
  phosphorus := t.phosphorus + e.phosphorus
  sodium := t.sodium + e.sodium

/-- The per-bucket totals reduce of `getDailyFoodLogs` in exact rational
arithmetic (idealized); the program's binary64 version is `totalsOfFP`. -/
def totalsOf (entries : List FoodLogEntry) : NutrientTotals :=
  entries.foldl addEntryTotals zeroTotals

/-- One date bucket of `getDailyFoodLogs` (`DailyFoodLog`). -/
structure DailyFoodLog where
  date : String
  entries : List FoodLogEntry
  totalNutrients : NutrientTotals
deriving DecidableEq

/-- `FoodLogService.getFoodLogForDate`: filter by exact date-string equality.
The same filter also yields the per-date groups of the `reduce` in
`getDailyFoodLogs`, which pushes entries into its buckets in list order. -/
def entriesForDate (l : List FoodLogEntry) (d : String) : List FoodLogEntry :=
  l.filter (fun e => e.date = d)

/-- `FoodLogService.getDailyFoodLogs` as a function of the persisted list:
group by the date field, sort the date keys most-recent-first
(`b.localeCompare(a)`, modelled as lexicographic character order), and build
one bucket with elementwise totals per date.  Totals here use exact
rational sums (the idealization); `getDailyFoodLogsFP` is the same function
with the program's rounding double addition. -/
def getDailyFoodLogs (l : List FoodLogEntry) : List DailyFoodLog :=
  (sortDescByKey (fun d => d.data) (l.map (fun e => e.date)).dedup).map
    (fun d =>
      { date := d
        entries := entriesForDate l d
        totalNutrients := totalsOf (entriesForDate l d) })

/-- The bucket `getDailyFoodLogs` produced for date `d`, if any. -/
def bucketFor (logs : List DailyFoodLog) (d : String) : Option DailyFoodLog :=
  logs.find? (fun b => b.date = d)

/-- Calories/potassium/phosphorus/sodium quadruple: the shape shared by
`currentIntake`, `recommendedLimits` and `remaining` of
`DailyNutritionContext`, and by `CKD_DAILY_LIMITS`. -/
structure NutrientQuad where
  calories : ℚ
  potassium : ℚ
  phosphorus : ℚ
  sodium : ℚ
deriving DecidableEq

/-- The default `CKD_DAILY_LIMITS` of `GeminiService`. -/
def defaultDailyLimits : NutrientQuad := ⟨2000, 2000, 800, 2000⟩

/-- One step of the intake reduce in `getTodayNutritionContext`. -/
def addIntake (t : NutrientQuad) (e : FoodLogEntry) : NutrientQuad where
  calories := t.calories + e.calories.getD 0
  potassium := t.potassium + e.potassium
  phosphorus := t.phosphorus + e.phosphorus
  sodium := t.sodium + e.sodium

/-- The intake reduce of `getTodayNutritionContext` over today's entries. -/
def intakeOf (entries : List FoodLogEntry) : NutrientQuad :=
  entries.foldl addIntake ⟨0, 0, 0, 0⟩

/-- Milliseconds per day. -/
def msPerDay : ℤ := 86400000

/-- Civil date (year, month 1-12, day 1-31) to days since 1970-01-01,
proleptic Gregorian (the arithmetic underlying JavaScript `Date`). -/
def daysFromCivil (y m d : ℤ) : ℤ :=
  let y' := if m ≤ 2 then y - 1 else y
  let era := y'.fdiv 400
  let yoe := y' - era * 400
  let mp := if 2 < m then m - 3 else m + 9
  let doy := (153 * mp + 2).fdiv 5 + d - 1
  let doe := yoe * 365 + yoe.fdiv 4 - yoe.fdiv 100 + doy
  era * 146097 + doe - 719468

/-- Days since 1970-01-01 to civil date (year, month, day), proleptic
Gregorian; inverse direction of `daysFromCivil`. -/
def civilFromDays (z : ℤ) : ℤ × ℤ × ℤ :=
  let z' := z + 719468
  let era := z'.fdiv 146097
  let doe := z' - era * 146097
  let yoe := (doe - doe.fdiv 1460 + doe.fdiv 36524 - doe.fdiv 146096).fdiv 365
  let y := yoe + era * 400
  let doy := doe - (365 * yoe + yoe.fdiv 4 - yoe.fdiv 100)
  let mp := (5 * doy + 2).fdiv 153
  let d := doy - (153 * mp + 2).fdiv 5 + 1
  let m := if mp < 10 then mp + 3 else mp - 9
  (if m ≤ 2 then y + 1 else y, m, d)

/-- Zero-pad a month or day number to two digits. -/
def pad2 (n : ℤ) : String :=
  if n < 10 then "0" ++ toString n.toNat else toString n.toNat

/-- Format a civil date triple as `YYYY-MM-DD`. -/
def formatCivil : ℤ × ℤ × ℤ → String
  | (y, m, d) => toString y.toNat ++ "-" ++ pad2 m ++ "-" ++ pad2 d

/-- The calendar date, in the UTC timezone, of the clock instant `nowMs`
(milliseconds since the epoch), as a `YYYY-MM-DD` string.  This is what
`new Date().toISOString().split("T")[0]` evaluates to. -/
def isoDateString (nowMs : ℤ) : String :=
  formatCivil (civilFromDays (nowMs.fdiv msPerDay))

/-- `FoodLogService.getCurrentDateString`: the source computes
`new Date().toISOString().split("T")[0]`, i.e. the UTC calendar date. -/
def getCurrentDateString (nowMs : ℤ) : String :=
  isoDateString nowMs

/-- The calendar date at the user's local clock, for a timezone that is
`offsetMin` minutes ahead of UTC at that instant, as a `YYYY-MM-DD` string.
This is the spec's notion of "the user's local calendar date". -/
def localDateString (nowMs offsetMin : ℤ) : String :=
  formatCivil (civilFromDays ((nowMs + offsetMin * 60000).fdiv msPerDay))

/-- The full `DailyNutritionContext` (`types/services`). -/
structure DailyNutritionContext where
  currentIntake : NutrientQuad
  recommendedLimits : NutrientQuad
  remaining : NutrientQuad
deriving DecidableEq

/-- `GeminiService.getTodayNutritionContext` as a function of the persisted
food log, the current daily limits and the clock: today's date string (the
source computes it with `toISOString`, hence UTC), today's summed intake, and
the elementwise remainder floored at zero. -/
def getTodayNutritionContext (store : List FoodLogEntry)
    (limits : NutrientQuad) (nowMs : ℤ) : DailyNutritionContext :=
  let today := isoDateString nowMs
  let currentIntake := intakeOf (entriesForDate store today)
  { currentIntake := currentIntake
    recommendedLimits := limits
    remaining :=
      { calories := max 0 (limits.calories - currentIntake.calories)
        potassium := max 0 (limits.potassium - currentIntake.potassium)
        phosphorus := max 0 (limits.phosphorus - currentIntake.phosphorus)
        sodium := max 0 (limits.sodium - currentIntake.sodium) } }

/-- English month abbreviations used by the default-locale short date. -/
def monthAbbrev (m : ℤ) : String :=
  if m = 1 then "Jan" else if m = 2 then "Feb" else if m = 3 then "Mar"
  else if m = 4 then "Apr" else if m = 5 then "May" else if m = 6 then "Jun"
  else if m = 7 then "Jul" else if m = 8 then "Aug" else if m = 9 then "Sep"
  else if m = 10 then "Oct" else if m = 11 then "Nov" else if m = 12 then "Dec"
  else ""

/-- The short localized date string of `formatDate`'s fall-through branch
(`toLocaleDateString` with short month, numeric day and year). -/
def shortDateString (y m d : ℤ) : String :=
  monthAbbrev m ++ " " ++ toString d.toNat ++ ", " ++ toString y.toNat

/-- `FoodLogService.formatDate`.  The entry date string has already been
parsed to the civil triple `(ey, em, ed)` (the source builds
`new Date(dateString + "T00:00:00")`, local midnight); `(ny, nm, nd)` is the
local civil date of `now` (the source reads only `getFullYear`, `getMonth`
and `getDate` of `now`, so the time of day never enters); `offsetMin` is the
local timezone offset, so `new Date(y, m, d).getTime()` is
`daysFromCivil y m d * msPerDay - offsetMin * 60000`. -/
def formatDate (ey em ed ny nm nd offsetMin : ℤ) : String :=
  let entryMs := daysFromCivil ey em ed * msPerDay - offsetMin * 60000
  let todayMs := daysFromCivil ny nm nd * msPerDay - offsetMin * 60000
  let diffDays := (todayMs - entryMs).fdiv msPerDay
  if diffDays = 0 then "Today"
  else if diffDays = 1 then "Yesterday"
  else if diffDays = 2 then "2 days ago"
  else if diffDays ≤ 7 then toString diffDays ++ " days ago"
  else shortDateString ey em ed

/-- Untyped JSON value.  `JSON.parse` performs no schema validation (the
TypeScript cast is structural only), so the gateway's parse result is
modelled as this untyped value. -/
inductive Json where
  | null : Json
  | bool (b : Bool) : Json
  | num (q : ℚ) : Json
  | str (s : String) : Json
  | arr (elems : List Json) : Json
  | obj (members : List (String × Json)) : Json

/-- JSON whitespace characters. -/
def isJsonWs (c : Char) : Bool :=
  c = ' ' || c = '\t' || c = '\n' || c = '\r'

/-- Drop leading JSON whitespace. -/
def skipWs : List Char → List Char
  | [] => []
  | c :: cs => if isJsonWs c then skipWs cs else c :: cs

/-- Decimal digit value of a character, if any. -/
def digitVal (c : Char) : Option ℕ :=
  if '0' ≤ c ∧ c ≤ '9' then some (c.toNat - 48) else none

/-- Hexadecimal digit value of a character, if any. -/
def hexVal (c : Char) : Option ℕ :=
  if '0' ≤ c ∧ c ≤ '9' then some (c.toNat - 48)
  else if 'a' ≤ c ∧ c ≤ 'f' then some (c.toNat - 87)
  else if 'A' ≤ c ∧ c ≤ 'F' then some (c.toNat - 55)
  else none

/-- Take a maximal run of decimal digits. -/
def takeDigits : List Char → List ℕ × List Char
  | [] => ([], [])
  | c :: cs =>
      match digitVal c with
      | some d => let (ds, rest) := takeDigits cs; (d :: ds, rest)
      | none => ([], c :: cs)

/-- Value of a digit run read most-significant-first. -/
def digitsToNat (ds : List ℕ) : ℕ :=
  ds.foldl (fun a d => a * 10 + d) 0

/-- Parse an optional JSON fraction part (after the integer part); returns
the fraction digits, `[]` when absent. -/
def parseFrac : List Char → Option (List ℕ × List Char)
  | '.' :: cs =>
      let (ds, rest) := takeDigits cs
      if ds.isEmpty then none else some (ds, rest)
  | s => some ([], s)

/-- Parse an optional JSON exponent part. -/
def parseExp : List Char → Option (ℤ × List Char)
  | [] => some (0, [])
  | c :: cs =>
      if c = 'e' || c = 'E' then
        match cs with
        | '+' :: cs2 =>
            let (ds, rest) := takeDigits cs2
            if ds.isEmpty then none else some ((digitsToNat ds : ℤ), rest)
        | '-' :: cs2 =>
            let (ds, rest) := takeDigits cs2
            if ds.isEmpty then none else some (-(digitsToNat ds : ℤ), rest)
        | cs2 =>
            let (ds, rest) := takeDigits cs2
            if ds.isEmpty then none else some ((digitsToNat ds : ℤ), rest)
      else some (0, c :: cs)

/-- Parse a JSON number (grammar of `JSON.parse`: optional minus, integer
part without leading zeros, optional fraction, optional exponent). -/
def parseNumber (s : List Char) : Option (ℚ × List Char) :=
  let (neg, s1) : Bool × List Char :=
    match s with
    | '-' :: cs => (true, cs)
    | _ => (false, s)
  match s1 with
  | [] => none
  | c :: cs =>
      match digitVal c with
      | none => none
      | some d =>
          let (intPart, s2) : ℕ × List Char :=
            if d = 0 then (0, cs)
            else let (ds, rest) := takeDigits cs; (digitsToNat (d :: ds), rest)
          match parseFrac s2 with
          | none => none
          | some (fds, s3) =>
              match parseExp s3 with
              | none => none
              | some (ex, s4) =>
                  let scaled : ℕ := intPart * 10 ^ fds.length + digitsToNat fds
                  let num : ℤ := if neg then -(scaled : ℤ) else (scaled : ℤ)
                  let mag : ℚ :=
                    if 0 ≤ ex then mkRat (num * 10 ^ ex.toNat) (10 ^ fds.length)
                    else mkRat num (10 ^ fds.length * 10 ^ (-ex).toNat)
                  some (mag, s4)

/-- Parse the body of a JSON string after the opening quote, handling the
escapes accepted by `JSON.parse`; returns the content and the input after
the closing quote. -/
def parseStringBody : ℕ → List Char → Option (List Char × List Char)
  | 0, _ => none
  | _, [] => none
  | fuel + 1, c :: cs =>
      if c = '"' then some ([], cs)
      else if c = '\\' then
        match cs with
        | [] => none
        | e :: cs2 =>
            if e = '"' then
              (parseStringBody fuel cs2).map (fun (t, r) => ('"' :: t, r))
            else if e = '\\' then
              (parseStringBody fuel cs2).map (fun (t, r) => ('\\' :: t, r))
            else if e = '/' then
              (parseStringBody fuel cs2).map (fun (t, r) => ('/' :: t, r))
            else if e = 'b' then
              (parseStringBody fuel cs2).map (fun (t, r) => ('\x08' :: t, r))
            else if e = 'f' then
              (parseStringBody fuel cs2).map (fun (t, r) => ('\x0c' :: t, r))
            else if e = 'n' then
              (parseStringBody fuel cs2).map (fun (t, r) => ('\n' :: t, r))
            else if e = 'r' then
              (parseStringBody fuel cs2).map (fun (t, r) => ('\r' :: t, r))
            else if e = 't' then
              (parseStringBody fuel cs2).map (fun (t, r) => ('\t' :: t, r))
            else if e = 'u' then
              match cs2 with
              | h1 :: h2 :: h3 :: h4 :: cs3 =>
                  match hexVal h1, hexVal h2, hexVal h3, hexVal h4 with
                  | some a, some b, some c3, some d =>
                      (parseStringBody fuel cs3).map
                        (fun (t, r) =>
                          (Char.ofNat (((a * 16 + b) * 16 + c3) * 16 + d) :: t, r))
                  | _, _, _, _ => none
              | _ => none
            else none
      else if c.toNat < 32 then none
      else (parseStringBody fuel cs).map (fun (t, r) => (c :: t, r))

mutual

/-- Fuel-bounded recursive-descent JSON value parser (model of
`JSON.parse`); returns the value and the unconsumed input. -/
def parseValue : ℕ → List Char → Option (Json × List Char)
  | 0, _ => none
  | fuel + 1, s =>
      match skipWs s with
      | [] => none
      | c :: cs =>
          if c = 'n' then
            match cs with
            | 'u' :: 'l' :: 'l' :: rest => some (.null, rest)
            | _ => none
          else if c = 't' then
            match cs with
            | 'r' :: 'u' :: 'e' :: rest => some (.bool true, rest)
            | _ => none
          else if c = 'f' then
            match cs with
            | 'a' :: 'l' :: 's' :: 'e' :: rest => some (.bool false, rest)
            | _ => none
          else if c = '"' then
            (parseStringBody (cs.length + 1) cs).map
              (fun (t, r) => (.str (String.mk t), r))
          else if c = '\x7b' then
            match skipWs cs with
            | '\x7d' :: rest => some (.obj [], rest)
            | cs2 => (parseMembers fuel cs2).map (fun (ms, r) => (.obj ms, r))
          else if c = '[' then
            match skipWs cs with
            | ']' :: rest => some (.arr [], rest)
            | cs2 => (parseElements fuel cs2).map (fun (es, r) => (.arr es, r))
          else if c = '-' || (digitVal c).isSome then
            (parseNumber (c :: cs)).map (fun (q, r) => (.num q, r))
          else none

/-- Parse a nonempty member list of a JSON object, up to and including the
closing brace. -/
def parseMembers : ℕ → List Char → Option (List (String × Json) × List Char)
  | 0, _ => none
  | fuel + 1, s =>
      match skipWs s with
      | '"' :: cs =>
          match parseStringBody (cs.length + 1) cs with
          | none => none
          | some (key, rest1) =>
              match skipWs rest1 with
              | ':' :: rest2 =>
                  match parseValue fuel rest2 with
                  | none => none
                  | some (v, rest3) =>
                      match skipWs rest3 with
                      | ',' :: rest4 =>
                          (parseMembers fuel rest4).map
                            (fun (ms, r) => ((String.mk key, v) :: ms, r))
                      | '\x7d' :: rest4 => some ([(String.mk key, v)], rest4)
                      | _ => none
              | _ => none
      | _ => none

/-- Parse a nonempty element list of a JSON array, up to and including the
closing bracket. -/
def parseElements : ℕ → List Char → Option (List Json × List Char)
  | 0, _ => none
  | fuel + 1, s =>
      match parseValue fuel s with
      | none => none
      | some (v, rest) =>
          match skipWs rest with
          | ',' :: rest2 =>
              (parseElements fuel rest2).map (fun (es, r) => (v :: es, r))
          | ']' :: rest2 => some ([v], rest2)
          | _ => none

end

/-- `JSON.parse` on a whole character list: one JSON value, possibly
surrounded by whitespace, nothing else. -/
def parseJson (s : List Char) : Option Json :=
  match parseValue (2 * s.length + 2) s with
  | some (j, rest) => if skipWs rest = [] then some j else none
  | none => none

/-- Index of the first character satisfying `p`, if any. -/
def findFirstIdx (p : Char → Bool) : List Char → Option ℕ
  | [] => none
  | c :: cs => if p c then some 0 else (findFirstIdx p cs).map (· + 1)

/-- Index of the last character satisfying `p`, if any. -/
def findLastIdx (p : Char → Bool) (s : List Char) : Option ℕ :=
  (findFirstIdx p s.reverse).map (fun k => s.length - 1 - k)

/-- The span matched by the greedy regex from the first `openC` to the last
`closeC` (`/\x7b[\s\S]*\x7d/` for braces, `/\[[\s\S]*\]/` for brackets):
the regex matches iff some `closeC` occurs strictly after the first `openC`,
and then takes everything from the first `openC` to the last `closeC`. -/
def extractSpan (openC closeC : Char) (s : List Char) : Option (List Char) :=
  (findFirstIdx (fun c => c = openC) s).bind fun i =>
    (findLastIdx (fun c => c = closeC) s).bind fun j =>
      if i < j then some ((s.drop i).take (j - i + 1)) else none

/-- The "No response from Gemini API" error message. -/
def msgNoResponse : String := "No response from Gemini API"

/-- The "Invalid response format from Gemini" error message thrown inside
the `try` block when the brace regex finds no match. -/
def msgInvalidFormat : String := "Invalid response format from Gemini"

/-- Model of the `SyntaxError` thrown by `JSON.parse` on malformed input. -/
def msgJsonSyntax : String := "SyntaxError: unexpected token in JSON"

/-- The generic error `analyzeFood`'s catch-all rethrows. -/
def msgAnalyzeFoodFailed : String :=
  "Failed to analyze food with Gemini AI. Please check your API configuration and try again."

/-- The generic error `analyzeFoodFromText`'s catch-all rethrows. -/
def msgAnalyzeTextFailed : String :=
  "Failed to analyze food from text with Gemini AI. Please check your API configuration and try again."

/-- The response-handling common to `analyzeFood` and `analyzeFoodFromText`,
as written inside their `try` blocks: reject a missing or empty (falsy)
response text, match the greedy brace regex, `JSON.parse` the match.  The
argument is the model response text (`none` when the candidates path is
absent); errors are the thrown messages. -/
def geminiJsonPipeline (responseText : Option (List Char)) : Except String Json :=
  match responseText with
  | none => .error msgNoResponse
  | some text =>
      if text = [] then .error msgNoResponse
      else
        match extractSpan '\x7b' '\x7d' text with
        | none => .error msgInvalidFormat
        | some span =>
            match parseJson span with
            | none => .error msgJsonSyntax
            | some j => .ok j

/-- `GeminiService.analyzeFood` from the model response text onward: the
whole body sits in one `try`; any thrown error (transport, missing text, no
regex match, JSON parse) is caught, logged, and replaced by the single
generic failure message. -/
def analyzeFood (responseText : Option (List Char)) : Except String Json :=
  match geminiJsonPipeline responseText with
  | .ok j => .ok j
  | .error _ => .error msgAnalyzeFoodFailed

/-- `GeminiService.analyzeFoodFromText` from the model response text onward;
identical shape to `analyzeFood` with its own generic failure message. -/
def analyzeFoodFromText (responseText : Option (List Char)) : Except String Json :=
  match geminiJsonPipeline responseText with
  | .ok j => .ok j
  | .error _ => .error msgAnalyzeTextFailed

/-- The error raised by a failing `AsyncStorage.setItem`/`removeItem`. -/
inductive StorageError where
  | writeFailed : StorageError
deriving DecidableEq

/-- Outcome of the underlying storage write: `writeOk = false` models a
rejected `setItem`/`removeItem`. -/
def setItemOutcome (writeOk : Bool) : Except StorageError Unit :=
  if writeOk then .ok () else .error .writeFailed

/-- `SearchHistoryService.saveSearch` with its failure handling: on a failed
write the catch block logs, shows a non-blocking alert, and resolves
normally, leaving the persisted list unchanged.  Result is (what the call
returns or throws, the persisted list afterwards). -/
def saveSearchOp (newItem : SearchHistoryItem) (store : List SearchHistoryItem)
    (writeOk : Bool) : Except StorageError Unit × List SearchHistoryItem :=
  match setItemOutcome writeOk with
  | .ok _ => (.ok (), saveSearch newItem store)
  | .error _ => (.ok (), store)

/-- `SearchHistoryService.deleteSearchItem` with its failure handling: the
catch block alerts and resolves normally. -/
def deleteSearchItemOp (id : String) (store : List SearchHistoryItem)
    (writeOk : Bool) : Except StorageError Unit × List SearchHistoryItem :=
  match setItemOutcome writeOk with
  | .ok _ => (.ok (), deleteSearchItem id store)
  | .error _ => (.ok (), store)

/-- `SearchHistoryService.clearAllHistory` with its failure handling: the
catch block alerts and resolves normally. -/
def clearAllHistoryOp (store : List SearchHistoryItem) (writeOk : Bool) :
    Except StorageError Unit × List SearchHistoryItem :=
  match setItemOutcome writeOk with
  | .ok _ => (.ok (), [])
  | .error _ => (.ok (), store)

/-- `FoodLogService.addFoodEntry` on the persisted list: append (push) the
new entry, which already carries its fresh id and timestamp. -/
def addFoodEntry (e : FoodLogEntry) (store : List FoodLogEntry) :
    List FoodLogEntry :=
  store ++ [e]

/-- `FoodLogService.addFoodEntry` with its failure handling: the catch block
logs and then rethrows (`throw error`), so a failed write propagates. -/
def addFoodEntryOp (e : FoodLogEntry) (store : List FoodLogEntry)
    (writeOk : Bool) : Except StorageError Unit × List FoodLogEntry :=
  match setItemOutcome writeOk with
  | .ok _ => (.ok (), addFoodEntry e store)
  | .error err => (.error err, store)

/-- `FoodLogService.deleteFoodEntry` on the persisted list. -/
def deleteFoodEntry (id : String) (store : List FoodLogEntry) :
    List FoodLogEntry :=
  store.filter (fun e => e.id ≠ id)

/-- `FoodLogService.deleteFoodEntry` with its failure handling: the catch
block logs and rethrows. -/
def deleteFoodEntryOp (id : String) (store : List FoodLogEntry)
    (writeOk : Bool) : Except StorageError Unit × List FoodLogEntry :=
  match setItemOutcome writeOk with
  | .ok _ => (.ok (), deleteFoodEntry id store)
  | .error err => (.error err, store)

/-- A `Partial<FoodLogEntry>` update object: every field optional; for the
fields that are themselves optional on `FoodLogEntry`, presence of the key
is one more `Option` layer. -/
structure FoodLogUpdate where
  id : Option String
  date : Option String
  foodName : Option String
  weight : Option ℚ
  calories : Option (Option ℚ)
  potassium : Option ℚ
  phosphorus : Option ℚ
  sodium : Option ℚ
  nutritionDataId : Option (Option String)
  customNutritionData : Option (Option NutritionInfo)
  timestamp : Option ℤ
deriving DecidableEq

/-- The object spread `{ ...entry, ...updates }`. -/
def applyUpdate (e : FoodLogEntry) (u : FoodLogUpdate) : FoodLogEntry where
  id := u.id.getD e.id
  date := u.date.getD e.date
  foodName := u.foodName.getD e.foodName
  weight := u.weight.getD e.weight
  calories := u.calories.getD e.calories
  potassium := u.potassium.getD e.potassium
  phosphorus := u.phosphorus.getD e.phosphorus
  sodium := u.sodium.getD e.sodium
  nutritionDataId := u.nutritionDataId.getD e.nutritionDataId
  customNutritionData := u.customNutritionData.getD e.customNutritionData
  timestamp := u.timestamp.getD e.timestamp

/-- `FoodLogService.updateFoodEntry` on the persisted list: merge-by-id. -/
def updateFoodEntry (id : String) (u : FoodLogUpdate)
    (store : List FoodLogEntry) : List FoodLogEntry :=
  store.map (fun e => if e.id = id then applyUpdate e u else e)

/-- `FoodLogService.updateFoodEntry` with its failure handling: the catch
block logs and rethrows. -/
def updateFoodEntryOp (id : String) (u : FoodLogUpdate)
    (store : List FoodLogEntry) (writeOk : Bool) :
    Except StorageError Unit × List FoodLogEntry :=
  match setItemOutcome writeOk with
  | .ok _ => (.ok (), updateFoodEntry id u store)
  | .error err => (.error err, store)

/-- `FoodLogService.clearAllFoodLog` with its failure handling: the catch
block logs and rethrows. -/
def clearAllFoodLogOp (store : List FoodLogEntry) (writeOk : Bool) :
    Except StorageError Unit × List FoodLogEntry :=
  match setItemOutcome writeOk with
  | .ok _ => (.ok (), [])
  | .error err => (.error err, store)

/-- A `Partial` update of the daily limits (`setDailyLimits` argument). -/
structure LimitsPatch where
  calories : Option ℚ
  potassium : Option ℚ
  phosphorus : Option ℚ
  sodium : Option ℚ
deriving DecidableEq

/-- `Object.assign(CKD_DAILY_LIMITS, limits)`: keys present in the patch
overwrite, absent keys are left alone. -/
def assignLimits (cur : NutrientQuad) (p : LimitsPatch) : NutrientQuad where
  calories := p.calories.getD cur.calories
  potassium := p.potassium.getD cur.potassium
  phosphorus := p.phosphorus.getD cur.phosphorus
  sodium := p.sodium.getD cur.sodium

/-- A tiny heap of `NutrientQuad` objects, to give meaning to JavaScript
object identity: `serviceRef` is the cell holding the service's mutable
`CKD_DAILY_LIMITS`; `next` is the next fresh address. -/
structure LimitsHeap where
  next : ℕ
  cells : ℕ → NutrientQuad
  serviceRef : ℕ

/-- The limits object the service itself currently holds (what prompt
construction reads). -/
def readServiceLimits (h : LimitsHeap) : NutrientQuad :=
  h.cells h.serviceRef

/-- Overwrite one heap cell (a JavaScript in-place object mutation). -/
def writeCell (h : LimitsHeap) (r : ℕ) (v : NutrientQuad) : LimitsHeap :=
  { h with cells := fun i => if i = r then v else h.cells i }

/-- `GeminiService.getDailyLimits`: `return { ...this.CKD_DAILY_LIMITS }`
allocates a fresh object holding a copy of the current limits and returns
a reference to it. -/
def getDailyLimits (h : LimitsHeap) : ℕ × LimitsHeap :=
  (h.next,
   { next := h.next + 1
     cells := fun i => if i = h.next then readServiceLimits h else h.cells i
     serviceRef := h.serviceRef })

/-- `GeminiService.setDailyLimits`: `Object.assign` onto the service's own
limits object. -/
def setDailyLimits (p : LimitsPatch) (h : LimitsHeap) : LimitsHeap :=
  writeCell h h.serviceRef (assignLimits (readServiceLimits h) p)

/-- Concrete renal assessment used by the test data below. -/
def testRenalDiet : RenalDiet :=
  ⟨true, SafetyFlag.safe, [], Level.low, Level.low, Level.low, Level.low,
   "fine for most renal diets", [], "none", none, none, none, none⟩

/-- Concrete nutrition record used by the test data below. -/
def testNutritionInfo : NutritionInfo :=
  ⟨⟨1, 2, 3, 4, 5⟩, zeroVitamins, zeroMinerals, testRenalDiet⟩

/-- The `k`-th saved history item of the capping scenario: fresh id,
timestamp `k`. -/
def testHistoryItem (k : ℕ) : SearchHistoryItem :=
  ⟨"item" ++ toString k, (k : ℤ), "", 100, "Apple", 78, none, none,
   some testNutritionInfo, none⟩

/-- 51 history items saved in timestamp order. -/
def testHistoryItems : List SearchHistoryItem :=
  (List.range 51).map testHistoryItem

/-- Concrete legacy summary (old persisted shape). -/
def testSummary : HistorySummary :=
  ⟨⟨7, 20, 1, 3, 15⟩, [], [], some ["high sodium"], some ["rinse well", "boil"]⟩

/-- Concrete legacy history item: summary present, no nutritionData. -/
def testLegacyItem : SearchHistoryItem :=
  ⟨"legacy1", 5, "", 50, "Rice", 65, none, none, none, some testSummary⟩

/-- Concrete food-log entry builder for the aggregation scenario. -/
def testLogEntry (id d : String) (w k : ℚ) : FoodLogEntry :=
  ⟨id, d, "food", w, some 10, k, 5, 3, none, none, 0⟩

/-- A concrete food log covering two dates. -/
def testLogA : List FoodLogEntry :=
  [testLogEntry "a" "2024-01-02" 100 300,
   testLogEntry "b" "2024-01-01" 50 200,
   testLogEntry "c" "2024-01-02" 80 100]

/-- A permutation of `testLogA`. -/
def testLogB : List FoodLogEntry :=
  [testLogEntry "c" "2024-01-02" 80 100,
   testLogEntry "a" "2024-01-02" 100 300,
   testLogEntry "b" "2024-01-01" 50 200]

/-- A food log holding 1800 mg of potassium on 1970-01-01 (the UTC date of
clock instant 0). -/
def potassiumScenarioStore : List FoodLogEntry :=
  [⟨"p1", "1970-01-01", "Banana", 150, some 130, 1800, 30, 1, none, none, 0⟩]

/-- Concrete food-log entry for the failure-handling scenario. -/
def testFoodEntry : FoodLogEntry :=
  ⟨"f1", "2024-01-01", "Apple", 100, some 52, 107, 12, 1, none, none, 0⟩

/-- A well-formed JSON object as the model would embed it in prose. -/
def appleJsonText : String := "\x7b\"food\": \"Apple\", \"calories\": 78\x7d"

/-- The JSON value `appleJsonText` denotes. -/
def appleJson : Json :=
  Json.obj [("food", Json.str "Apple"), ("calories", Json.num 78)]

/-- A concrete heap whose cell 0 holds the service's default limits. -/
def testHeap : LimitsHeap :=
  ⟨1, fun _ => defaultDailyLimits, 0⟩

/-- Fuel-bounded floor-log2 (the fuel only needs to exceed the bit length
of the argument). -/
def log2Sized : ℕ → ℕ → ℕ
  | 0, _ => 0
  | fuel + 1, n => if n ≤ 1 then 0 else log2Sized fuel (n / 2) + 1

/-- Floor-log2 for every magnitude binary64 arithmetic can produce: the
fuel 4400 exceeds twice the full binary64 exponent range, so it covers
numerator and denominator of any exact sum of two finite doubles. -/
def natLog2 (n : ℕ) : ℕ := log2Sized 4400 n

/-- Decide `2 ^ e ≤ a / b` by cross-multiplication. -/
def le2pow (e : ℤ) (a b : ℕ) : Bool :=
  if 0 ≤ e then 2 ^ e.toNat * b ≤ a else b ≤ a * 2 ^ (-e).toNat

/-- Round `num / den` (with `den > 0`) to the nearest integer, ties to the
even neighbour. -/
def roundMantissa (num den : ℤ) : ℤ :=
  let f := num.fdiv den
  let r := num - f * den
  if 2 * r < den then f
  else if den < 2 * r then f + 1
  else if f % 2 = 0 then f else f + 1

/-- Round a rational to the nearest IEEE-754 binary64 value (round to
nearest, ties to even, 53-bit significand): the rounding JavaScript applies
after every arithmetic operation.  Exact for the binary64 normal range;
overflow and subnormal underflow are not modelled (nutrient values are far
inside the normal range). -/
def roundToDouble53 (q : ℚ) : ℚ :=
  if q.num = 0 then 0
  else
    let sign : ℤ := if q.num < 0 then -1 else 1
    let a : ℕ := q.num.natAbs
    let b : ℕ := q.den
    let e0 : ℤ := (natLog2 a : ℤ) - (natLog2 b : ℤ)
    let e : ℤ := if le2pow e0 a b then e0 else e0 - 1
    let sn : ℤ := if 0 ≤ 52 - e then ((a * 2 ^ (52 - e).toNat : ℕ) : ℤ) else (a : ℤ)
    let sd : ℤ := if 0 ≤ 52 - e then ((b : ℕ) : ℤ) else ((b * 2 ^ (e - 52).toNat : ℕ) : ℤ)
    let n := roundMantissa sn sd
    if 0 ≤ e - 52 then mkRat (sign * n * 2 ^ (e - 52).toNat) 1
    else mkRat (sign * n) (2 ^ (52 - e).toNat)

/-- JavaScript double addition `x + y`: the exact rational sum, rounded to
binary64. -/
def fpAdd (x y : ℚ) : ℚ :=
  roundToDouble53
    (mkRat (x.num * (y.den : ℤ) + y.num * (x.den : ℤ)) (x.den * y.den))

/-- One step of the per-day reduce of `getDailyFoodLogs` with the
program's actual binary64 addition. -/
def addEntryTotalsFP (t : NutrientTotals) (e : FoodLogEntry) : NutrientTotals where
  weight := fpAdd t.weight e.weight
  calories := fpAdd t.calories (e.calories.getD 0)
  potassium := fpAdd t.potassium e.potassium
  phosphorus := fpAdd t.phosphorus e.phosphorus
  sodium := fpAdd t.sodium e.sodium

/-- The per-bucket totals reduce with binary64 addition (faithful to the
JavaScript `reduce`). -/
def totalsOfFP (entries : List FoodLogEntry) : NutrientTotals :=
  entries.foldl addEntryTotalsFP zeroTotals

/-- `FoodLogService.getDailyFoodLogs` with the program's binary64 totals:
identical to `getDailyFoodLogs` except that every addition of the totals
reduce rounds to double precision. -/
def getDailyFoodLogsFP (l : List FoodLogEntry) : List DailyFoodLog :=
  (sortDescByKey (fun d => d.data) (l.map (fun e => e.date)).dedup).map
    (fun d =>
      { date := d
        entries := entriesForDate l d
        totalNutrients := totalsOfFP (entriesForDate l d) })

/-- Food-log entry with only a calories value, for the rounding scenario. -/
def fpLogEntry (id : String) (cal : ℚ) : FoodLogEntry :=
  ⟨id, "2024-01-01", "food", 0, some cal, 0, 0, 0, none, none, 0⟩

/-- Three entries whose calories are 2^53, 1 and 1: all three are exactly
representable doubles, but their double sum depends on the order. -/
def fpLogA : List FoodLogEntry :=
  [fpLogEntry "x1" 9007199254740992, fpLogEntry "x2" 1, fpLogEntry "x3" 1]

/-- A permutation of `fpLogA` that sums the two small entries first. -/
def fpLogB : List FoodLogEntry :=
  [fpLogEntry "x2" 1, fpLogEntry "x3" 1, fpLogEntry "x1" 9007199254740992]

/-- Inserting into a list is a permutation of consing. -/
theorem insertDescByKey_perm {α κ : Type} [LinearOrder κ] (key : α → κ) (x : α) :
    ∀ l : List α, (insertDescByKey key x l).Perm (x :: l)
  | [] => by simp [insertDescByKey]
  | y :: ys => by
      by_cases h : key y ≤ key x
      · simp [insertDescByKey, h]
      · simp only [insertDescByKey, if_neg h]
        exact ((insertDescByKey_perm key x ys).cons y).trans (List.Perm.swap x y ys)

/-- The stable descending sort is a permutation of its input. -/
theorem sortDescByKey_perm {α κ : Type} [LinearOrder κ] (key : α → κ) :
    ∀ l : List α, (sortDescByKey key l).Perm l
  | [] => List.Perm.refl []
  | x :: xs => by
      simpa [sortDescByKey] using
        (insertDescByKey_perm key x (sortDescByKey key xs)).trans
          ((sortDescByKey_perm key xs).cons x)

/-- Membership in an insertion. -/
theorem mem_insertDescByKey {α κ : Type} [LinearOrder κ] {key : α → κ}
    {x z : α} {l : List α} : z ∈ insertDescByKey key x l ↔ z = x ∨ z ∈ l := by
  rw [(insertDescByKey_perm key x l).mem_iff, List.mem_cons]

/-- Insertion preserves the descending pairwise invariant. -/
theorem insertDescByKey_pairwise {α κ : Type} [LinearOrder κ] {key : α → κ}
    (x : α) :
    ∀ {l : List α}, List.Pairwise (fun a b => key b ≤ key a) l →
      List.Pairwise (fun a b => key b ≤ key a) (insertDescByKey key x l)
  | [], _ => by simp [insertDescByKey]
  | y :: ys, h => by
      rcases List.pairwise_cons.mp h with ⟨hy, hys⟩
      by_cases hxy : key y ≤ key x
      · simp only [insertDescByKey, if_pos hxy]
        refine List.pairwise_cons.mpr ⟨?_, h⟩
        intro z hz
        rcases List.mem_cons.mp hz with rfl | hz'
        · exact hxy
        · exact le_trans (hy z hz') hxy
      · simp only [insertDescByKey, if_neg hxy]
        refine List.pairwise_cons.mpr ⟨?_, insertDescByKey_pairwise x hys⟩
        intro z hz
        rcases mem_insertDescByKey.mp hz with rfl | hz'
        · exact le_of_not_le hxy
        · exact hy z hz'

/-- The stable descending sort always yields a descending list. -/
theorem sortDescByKey_pairwise {α κ : Type} [LinearOrder κ] (key : α → κ) :
    ∀ l : List α, List.Pairwise (fun a b => key b ≤ key a) (sortDescByKey key l)
  | [] => List.Pairwise.nil
  | x :: xs => by
      simpa [sortDescByKey] using
        insertDescByKey_pairwise x (sortDescByKey_pairwise key xs)

/-- A list already in descending key order is a fixed point of the sort
(exactly as the stable JavaScript sort leaves a sorted array unchanged). -/
theorem sortDescByKey_eq_of_pairwise {α κ : Type} [LinearOrder κ] {key : α → κ} :
    ∀ {l : List α}, List.Pairwise (fun a b => key b ≤ key a) l →
      sortDescByKey key l = l
  | [], _ => rfl
  | x :: xs, h => by
      rcases List.pairwise_cons.mp h with ⟨hx, hxs⟩
      rw [sortDescByKey, sortDescByKey_eq_of_pairwise hxs]
      cases xs with
      | nil => rfl
      | cons y ys =>
          simp only [insertDescByKey, if_pos (hx y (List.mem_cons_self y ys))]

/-- Migration leaves an entry that already has a full nutrition record
unchanged. -/
theorem migrateItem_of_isSome {item : SearchHistoryItem}
    (h : item.nutritionData.isSome) : migrateItem item = item := by
  rcases hnd : item.nutritionData with _ | nd
  · rw [hnd] at h; simp at h
  · cases hs : item.summary <;> simp [migrateItem, hnd, hs]

/-- Migration never changes the timestamp. -/
theorem migrateItem_timestamp (item : SearchHistoryItem) :
    (migrateItem item).timestamp = item.timestamp := by
  cases hnd : item.nutritionData <;> cases hs : item.summary <;>
    simp [migrateItem, hnd, hs]

/-- Migration is idempotent. -/
theorem migrateItem_idem (item : SearchHistoryItem) :
    migrateItem (migrateItem item) = migrateItem item := by
  cases hnd : item.nutritionData <;> cases hs : item.summary <;>
    simp [migrateItem, hnd, hs]

/-- Reading a store whose entries are migrated and already descending by
timestamp returns it unchanged. -/
theorem getSearchHistory_eq_of_invariant {store : List SearchHistoryItem}
    (hmig : ∀ e ∈ store, migrateItem e = e)
    (hsorted : List.Pairwise (fun a b => b.timestamp ≤ a.timestamp) store) :
    getSearchHistory store = store := by
  unfold getSearchHistory
  rw [List.map_congr_left hmig]
  simp only [List.map_id']
  exact sortDescByKey_eq_of_pairwise hsorted

/-- Truncating the right summand before or after appending makes no
difference to a truncated append. -/
theorem take_append_take {α : Type} (n : ℕ) (a b : List α) :
    (a ++ b.take n).take n = (a ++ b).take n := by
  rw [List.take_append_eq_append_take, List.take_append_eq_append_take,
    List.take_take, min_eq_left (Nat.sub_le n a.length)]

/-- Every element of a read-back history is a migrated entry, hence itself
invariant under migration. -/
theorem migrate_eq_of_mem_getSearchHistory {store : List SearchHistoryItem}
    {e : SearchHistoryItem} (he : e ∈ getSearchHistory store) :
    migrateItem e = e := by
  unfold getSearchHistory at he
  have := (sortDescByKey_perm (fun i => i.timestamp) (store.map migrateItem)).mem_iff.mp he
  rcases List.mem_map.mp this with ⟨e₀, _, rfl⟩
  exact migrateItem_idem e₀

/-- Timestamps seen in a read-back history come from the stored entries. -/
theorem timestamp_le_of_mem_getSearchHistory {store : List SearchHistoryItem}
    {e : SearchHistoryItem} {t : ℤ} (he : e ∈ getSearchHistory store)
    (hb : ∀ x ∈ store, x.timestamp ≤ t) : e.timestamp ≤ t := by
  unfold getSearchHistory at he
  have := (sortDescByKey_perm (fun i => i.timestamp) (store.map migrateItem)).mem_iff.mp he
  rcases List.mem_map.mp this with ⟨e₀, he₀, rfl⟩
  rw [migrateItem_timestamp]
  exact hb e₀ he₀

/-- Evolution of the persisted history under a run of saves: starting from a
migrated, descending store of at most 50 entries whose timestamps precede
all the saves, and saving items with nondecreasing timestamps and full
nutrition records, the store ends as the first 50 of (reversed saves ++
old store). -/
theorem saveAll_spec :
    ∀ (items store : List SearchHistoryItem),
      List.Pairwise (fun a b => a.timestamp ≤ b.timestamp) items →
      (∀ i ∈ items, i.nutritionData.isSome) →
      (∀ e ∈ store, ∀ i ∈ items, e.timestamp ≤ i.timestamp) →
      List.Pairwise (fun a b => b.timestamp ≤ a.timestamp) store →
      (∀ e ∈ store, migrateItem e = e) →
      store.length ≤ 50 →
      saveAll items store = (items.reverse ++ store).take 50
  | [], store => by
      intro _ _ _ _ _ hlen
      simp [saveAll, List.take_of_length_le hlen]
  | n :: rest, store => by
      intro hmono hfull hbound hsorted hmig hlen
      have hnstore : ∀ e ∈ store, e.timestamp ≤ n.timestamp := fun e he =>
        hbound e he n (List.mem_cons_self n rest)
      have hsave : saveSearch n store = ((n :: store).take 50) := by
        unfold saveSearch
        rw [getSearchHistory_eq_of_invariant hmig hsorted]
      have hsorted' : List.Pairwise (fun a b => b.timestamp ≤ a.timestamp)
          ((n :: store).take 50) :=
        List.Pairwise.sublist (List.take_sublist 50 (n :: store))
          (List.pairwise_cons.mpr ⟨hnstore, hsorted⟩)
      have hsub : ∀ e ∈ (n :: store).take 50, e ∈ n :: store := fun e he =>
        List.take_subset 50 (n :: store) he
      have hbound' : ∀ e ∈ (n :: store).take 50, ∀ i ∈ rest,
          e.timestamp ≤ i.timestamp := by
        intro e he i hi
        rcases List.mem_cons.mp (hsub e he) with rfl | he'
        · exact (List.pairwise_cons.mp hmono).1 i hi
        · exact hbound e he' i (List.mem_cons_of_mem n hi)
      have hmig' : ∀ e ∈ (n :: store).take 50, migrateItem e = e := by
        intro e he
        rcases List.mem_cons.mp (hsub e he) with rfl | he'
        · exact migrateItem_of_isSome (hfull e (List.mem_cons_self e rest))
        · exact hmig e he'
      have hlen' : ((n :: store).take 50).length ≤ 50 := by
        rw [List.length_take]; exact min_le_left _ _
      have ih := saveAll_spec rest ((n :: store).take 50)
        (List.pairwise_cons.mp hmono).2
        (fun i hi => hfull i (List.mem_cons_of_mem n hi))
        hbound' hsorted' hmig' hlen'
      calc saveAll (n :: rest) store
          = saveAll rest ((n :: store).take 50) := by rw [saveAll, hsave]
        _ = (rest.reverse ++ (n :: store).take 50).take 50 := ih
        _ = (rest.reverse ++ (n :: store)).take 50 := take_append_take 50 _ _
        _ = ((n :: rest).reverse ++ store).take 50 := by
              rw [List.reverse_cons, List.append_assoc]; rfl

/-- Claim C1: for every sequence of `saveSearch` calls into the history
store (saves carrying nondecreasing fresh timestamps and full nutrition
records, as `Date.now()` and the call sites produce), after more than 50
saves the persisted collection is exactly the 50 most recently saved
entries, newest first (each save prepends, then truncates to 50). -/
theorem saveSearch_caps_history_at_50 (items : List SearchHistoryItem)
    (hmono : List.Pairwise (fun a b => a.timestamp ≤ b.timestamp) items)
    (hfull : ∀ i ∈ items, i.nutritionData.isSome)
    (hlen : 50 < items.length) :
    saveAll items [] = items.reverse.take 50 ∧
    (saveAll items []).length = 50 ∧
    List.Pairwise (fun a b => b.timestamp ≤ a.timestamp) (saveAll items []) := by
  have h := saveAll_spec items [] hmono hfull (by simp) (by simp) (by simp)
    (by simp)
  rw [List.append_nil] at h
  refine ⟨h, ?_, ?_⟩
  · rw [h, List.length_take, List.length_reverse,
      min_eq_left (Nat.le_of_lt hlen)]
  · rw [h]
    exact List.Pairwise.sublist (List.take_sublist 50 items.reverse)
      (List.pairwise_reverse.mpr hmono)

/-- The timestamps of the test saves are nondecreasing. -/
theorem testHistoryItems_mono :
    List.Pairwise (fun a b => a.timestamp ≤ b.timestamp) testHistoryItems := by
  unfold testHistoryItems
  rw [List.pairwise_map]
  exact (List.pairwise_lt_range 51).imp
    (fun h => by simpa [testHistoryItem] using Int.ofNat_le.mpr (Nat.le_of_lt h))

/-- Every test save carries a full nutrition record. -/
theorem testHistoryItems_full :
    ∀ i ∈ testHistoryItems, i.nutritionData.isSome := by
  intro i hi
  rcases List.mem_map.mp hi with ⟨k, _, rfl⟩
  rfl

/-- Witness for claim C1: a concrete run of 51 saves ends with exactly the
50 most recent saves, newest first. -/
theorem saveSearch_caps_history_at_50_witness :
    saveAll testHistoryItems [] = testHistoryItems.reverse.take 50 ∧
    (saveAll testHistoryItems []).length = 50 :=
  have h := saveSearch_caps_history_at_50 testHistoryItems testHistoryItems_mono
    testHistoryItems_full (by simp [testHistoryItems])
  ⟨h.1, h.2.1⟩

/-- Claim C2 counterexample: with a failing storage write, the daily-log
operation `addFoodEntry` does not return normally; its catch block rethrows,
so the storage exception propagates to the caller. -/
theorem addFoodEntry_write_failure_propagates :
    (addFoodEntryOp testFoodEntry [] false).fst =
      Except.error StorageError.writeFailed :=
  rfl

/-- Claim C2 amended: when the underlying storage write fails, the three
history-store operations swallow the failure and return normally, but the
four daily-log operations rethrow the storage error to their caller. -/
theorem write_failure_handling (n : SearchHistoryItem) (hid : String)
    (store : List SearchHistoryItem) (e : FoodLogEntry) (fid : String)
    (u : FoodLogUpdate) (fstore : List FoodLogEntry) :
    (saveSearchOp n store false).fst = Except.ok () ∧
    (deleteSearchItemOp hid store false).fst = Except.ok () ∧
    (clearAllHistoryOp store false).fst = Except.ok () ∧
    (addFoodEntryOp e fstore false).fst = Except.error StorageError.writeFailed ∧
    (deleteFoodEntryOp fid fstore false).fst = Except.error StorageError.writeFailed ∧
    (updateFoodEntryOp fid u fstore false).fst = Except.error StorageError.writeFailed ∧
    (clearAllFoodLogOp fstore false).fst = Except.error StorageError.writeFailed :=
  ⟨rfl, rfl, rfl, rfl, rfl, rfl, rfl⟩

/-- Claim C3: `getCurrentDateString` (and the `today` of
`getTodayNutritionContext`, which evaluates the same
`toISOString().split("T")[0]` expression) yields the UTC calendar date, not
the local one: at clock instant 0 in a UTC−01:00 timezone the local date is
1969-12-31 but the code produces 1970-01-01. -/
theorem getCurrentDateString_is_utc_not_local :
    getCurrentDateString 0 = "1970-01-01" ∧
    localDateString 0 (-60) = "1969-12-31" ∧
    getCurrentDateString 0 ≠ localDateString 0 (-60) :=
  ⟨by decide, by decide, by decide⟩

/-- A predicate false on every character of a list finds no index. -/
theorem findFirstIdx_eq_none {p : Char → Bool} :
    ∀ {l : List Char}, (∀ c ∈ l, p c = false) → findFirstIdx p l = none
  | [], _ => rfl
  | c :: cs, h => by
      have hc : p c = false := h c (List.mem_cons_self c cs)
      have ih := findFirstIdx_eq_none
        (fun d hd => h d (List.mem_cons_of_mem c hd))
      simp [findFirstIdx, hc, ih]

/-- Without any opening brace there is no regex match. -/
theorem extractSpan_eq_none {s : List Char} (h : ∀ c ∈ s, c ≠ '\x7b') :
    extractSpan '\x7b' '\x7d' s = none := by
  unfold extractSpan
  rw [findFirstIdx_eq_none (fun c hc => decide_eq_false (h c hc))]
  rfl

/-- Claim C4 counterexample: on a response with no brace and no bracket the
analysis operations raise the generic configuration-failure error, not the
"invalid response format" error (that one is thrown inside the `try` and
replaced by the surrounding catch-all). -/
theorem analyzeFood_invalid_format_replaced :
    analyzeFood (some "The food looks delicious and healthy.".data) =
      Except.error msgAnalyzeFoodFailed ∧
    analyzeFood (some "The food looks delicious and healthy.".data) ≠
      Except.error msgInvalidFormat ∧
    analyzeFoodFromText (some "The food looks delicious and healthy.".data) ≠
      Except.error msgInvalidFormat := by
  refine ⟨rfl, fun h => ?_, fun h => ?_⟩
  · rw [show analyzeFood (some "The food looks delicious and healthy.".data) =
        Except.error msgAnalyzeFoodFailed from rfl] at h
    exact absurd (Except.error.inj h) (by decide)
  · rw [show analyzeFoodFromText
        (some "The food looks delicious and healthy.".data) =
        Except.error msgAnalyzeTextFailed from rfl] at h
    exact absurd (Except.error.inj h) (by decide)

/-- Claim C4 amended: for every model response text containing no brace and
no bracket, `analyzeFood` and `analyzeFoodFromText` raise an error to their
caller, namely their generic analysis-failure error (the internal "invalid
response format" error is caught by the operation's own catch-all and
rethrown as the generic message). -/
theorem analyzeFood_no_json_generic_error (text : List Char)
    (hb : ∀ c ∈ text, c ≠ '\x7b') (_hk : ∀ c ∈ text, c ≠ '[') :
    analyzeFood (some text) = Except.error msgAnalyzeFoodFailed ∧
    analyzeFoodFromText (some text) = Except.error msgAnalyzeTextFailed := by
  have hpipe : ∃ m, geminiJsonPipeline (some text) = Except.error m := by
    simp only [geminiJsonPipeline]
    by_cases htext : text = []
    · exact ⟨msgNoResponse, by rw [if_pos htext]⟩
    · rw [if_neg htext, extractSpan_eq_none hb]
      exact ⟨msgInvalidFormat, rfl⟩
  obtain ⟨m, hm⟩ := hpipe
  constructor
  · unfold analyzeFood; rw [hm]
  · unfold analyzeFoodFromText; rw [hm]

/-- Witness for the amended claim C4 at a concrete brace-free response. -/
theorem analyzeFood_no_json_generic_error_witness :
    analyzeFood (some "hello world".data) = Except.error msgAnalyzeFoodFailed ∧
    analyzeFoodFromText (some "hello world".data) =
      Except.error msgAnalyzeTextFailed :=
  analyzeFood_no_json_generic_error "hello world".data (by decide) (by decide)

/-- On a prefix with no hit, the first index shifts by the prefix length. -/
theorem findFirstIdx_append {p : Char → Bool} (b : List Char) :
    ∀ {a : List Char}, (∀ c ∈ a, p c = false) →
      findFirstIdx p (a ++ b) = (findFirstIdx p b).map (· + a.length)
  | [], _ => by cases hfb : findFirstIdx p b <;> simp [hfb]
  | c :: cs, h => by
      have hc : p c = false := h c (List.mem_cons_self c cs)
      have ih := findFirstIdx_append b
        (fun d hd => h d (List.mem_cons_of_mem c hd))
      simp only [List.cons_append, findFirstIdx, hc, Bool.false_eq_true,
        if_false, List.length_cons]
      cases hfb : findFirstIdx p b <;> simp [ih, hfb, Nat.add_assoc]

/-- The greedy brace regex on prose-wrapped JSON: if the leading prose has
no opening brace, the trailing prose no closing brace, and the embedded text
starts with an opening and ends with a closing brace, the match is exactly
the embedded text. -/
theorem extractSpan_embedded (leading objText trailing : List Char)
    (hl : ∀ c ∈ leading, c ≠ '\x7b') (ht : ∀ c ∈ trailing, c ≠ '\x7d')
    (hhead : objText.head? = some '\x7b')
    (hlast : objText.getLast? = some '\x7d') :
    extractSpan '\x7b' '\x7d' (leading ++ objText ++ trailing) = some objText := by
  obtain ⟨tl, rfl⟩ : ∃ tl, objText = '\x7b' :: tl := by
    cases objText with
    | nil => simp at hhead
    | cons c cs =>
        simp only [List.head?_cons, Option.some.injEq] at hhead
        exact ⟨cs, by rw [hhead]⟩
  have htl : 1 ≤ tl.length := by
    cases tl with
    | nil => exact absurd hlast (by decide)
    | cons d ds => simp
  have hsform : leading ++ ('\x7b' :: tl) ++ trailing
      = leading ++ '\x7b' :: (tl ++ trailing) := by simp
  rw [hsform]
  obtain ⟨rl, hrl, hrllen⟩ :
      ∃ rl, ('\x7b' :: tl).reverse = '\x7d' :: rl ∧ rl.length = tl.length := by
    have h1 : ('\x7b' :: tl).reverse.head? = some '\x7d' := by
      rw [List.head?_reverse]; exact hlast
    cases hrev2 : ('\x7b' :: tl).reverse with
    | nil => rw [hrev2] at h1; simp at h1
    | cons d ds =>
        rw [hrev2] at h1
        simp only [List.head?_cons, Option.some.injEq] at h1
        refine ⟨ds, by rw [h1], ?_⟩
        have := congrArg List.length hrev2
        simpa [List.length_reverse] using this.symm
  have hfirst : findFirstIdx (fun c => c = '\x7b')
      (leading ++ '\x7b' :: (tl ++ trailing)) = some leading.length := by
    rw [findFirstIdx_append ('\x7b' :: (tl ++ trailing))
      (fun c hc => decide_eq_false (hl c hc))]
    simp [findFirstIdx]
  have h2 : tl.reverse ++ ['\x7b'] = '\x7d' :: rl := by
    simpa [List.reverse_cons] using hrl
  have hrevS : (leading ++ '\x7b' :: (tl ++ trailing)).reverse
      = trailing.reverse ++ ('\x7d' :: (rl ++ leading.reverse)) := by
    calc (leading ++ '\x7b' :: (tl ++ trailing)).reverse
        = ('\x7b' :: (tl ++ trailing)).reverse ++ leading.reverse := by
          rw [List.reverse_append]
      _ = ((tl ++ trailing).reverse ++ ['\x7b']) ++ leading.reverse := by
          rw [List.reverse_cons]
      _ = ((trailing.reverse ++ tl.reverse) ++ ['\x7b']) ++ leading.reverse := by
          rw [List.reverse_append]
      _ = trailing.reverse ++ ((tl.reverse ++ ['\x7b']) ++ leading.reverse) := by
          simp [List.append_assoc]
      _ = trailing.reverse ++ (('\x7d' :: rl) ++ leading.reverse) := by rw [h2]
      _ = trailing.reverse ++ ('\x7d' :: (rl ++ leading.reverse)) := by
          rw [List.cons_append]
  have hlastidx : findLastIdx (fun c => c = '\x7d')
      (leading ++ '\x7b' :: (tl ++ trailing)) =
      some (leading.length + tl.length) := by
    unfold findLastIdx
    rw [hrevS, findFirstIdx_append ('\x7d' :: (rl ++ leading.reverse))
      (fun c hc => decide_eq_false (ht c (List.mem_reverse.mp hc)))]
    simp [findFirstIdx, List.length_append, List.length_cons,
      List.length_reverse]
    omega
  unfold extractSpan
  rw [hfirst, hlastidx]
  simp only [Option.some_bind]
  rw [if_pos (by omega : leading.length < leading.length + tl.length)]
  have hdrop : (leading ++ '\x7b' :: (tl ++ trailing)).drop leading.length
      = '\x7b' :: (tl ++ trailing) := List.drop_left leading _
  rw [hdrop]
  have harith : leading.length + tl.length - leading.length + 1
      = tl.length + 1 := by omega
  rw [harith, List.take_succ_cons, List.take_left]

/-- Claim C5: for every model response consisting of leading prose (no
opening brace), a well-formed JSON object text, and trailing prose (no
closing brace), both analysis operations return exactly the parse of the
embedded object: the greedy regex takes the span from the first opening to
the last closing brace, and `JSON.parse` is applied to exactly that span. -/
theorem analyzeFood_returns_embedded_object
    (leading objText trailing : List Char) (j : Json)
    (hl : ∀ c ∈ leading, c ≠ '\x7b') (ht : ∀ c ∈ trailing, c ≠ '\x7d')
    (hhead : objText.head? = some '\x7b')
    (hlast : objText.getLast? = some '\x7d')
    (hparse : parseJson objText = some j) :
    analyzeFood (some (leading ++ objText ++ trailing)) = Except.ok j ∧
    analyzeFoodFromText (some (leading ++ objText ++ trailing)) = Except.ok j := by
  have hne : leading ++ objText ++ trailing ≠ [] := by
    intro h
    rcases List.append_eq_nil.mp h with ⟨h1, -⟩
    rcases List.append_eq_nil.mp h1 with ⟨-, h3⟩
    rw [h3] at hhead
    simp at hhead
  have hx := extractSpan_embedded leading objText trailing hl ht hhead hlast
  rw [List.append_assoc] at hx
  have hne2 := hne
  rw [List.append_assoc] at hne2
  have hpipe : geminiJsonPipeline (some (leading ++ objText ++ trailing))
      = Except.ok j := by
    simp [geminiJsonPipeline, hne2, hx, hparse]
  exact ⟨by unfold analyzeFood; rw [hpipe],
    by unfold analyzeFoodFromText; rw [hpipe]⟩

/-- Witness for claim C5: a concrete prose-wrapped JSON object is parsed to
exactly the embedded record. -/
theorem analyzeFood_returns_embedded_object_witness :
    analyzeFood (some ("Here is the analysis: ".data ++ appleJsonText.data ++
      " Enjoy!".data)) = Except.ok appleJson ∧
    analyzeFoodFromText (some ("Here is the analysis: ".data ++
      appleJsonText.data ++ " Enjoy!".data)) = Except.ok appleJson :=
  analyzeFood_returns_embedded_object "Here is the analysis: ".data
    appleJsonText.data " Enjoy!".data appleJson (by decide) (by decide)
    (by decide) (by decide) rfl

/-- Claim C6: saving an entry and reading the store back yields that exact
record first (same id, timestamp and nutrition values); a stored
legacy-shaped entry (summary, no nutritionData) is returned with a
synthesized record whose macros equal the summary's macros, whose vitamin
and mineral panels are all zero, and whose recommendation is the migration
note; and the returned list is sorted descending by timestamp. -/
theorem history_roundtrip_and_migration
    (store : List SearchHistoryItem) (newItem leg : SearchHistoryItem)
    (s : HistorySummary)
    (hfull : newItem.nutritionData.isSome)
    (hts : ∀ e ∈ store, e.timestamp ≤ newItem.timestamp)
    (hlegNd : leg.nutritionData = none) (hlegS : leg.summary = some s) :
    (getSearchHistory (saveSearch newItem store)).head? = some newItem ∧
    (∃ nd, getSearchHistory [leg] =
        [{ leg with nutritionData := some nd }] ∧
      nd.macros = s.macros ∧ nd.vitamins = zeroVitamins ∧
      nd.minerals = zeroMinerals ∧
      nd.renalDiet.recommendation = migratedRecommendation ∧
      nd.renalDiet.warnings = s.warnings.getD []) ∧
    List.Pairwise (fun a b => b.timestamp ≤ a.timestamp)
      (getSearchHistory store) := by
  refine ⟨?_, ?_, sortDescByKey_pairwise _ _⟩
  · have hHmig : ∀ e ∈ getSearchHistory store, migrateItem e = e :=
      fun e he => migrate_eq_of_mem_getSearchHistory he
    have hHts : ∀ e ∈ getSearchHistory store, e.timestamp ≤ newItem.timestamp :=
      fun e he => timestamp_le_of_mem_getSearchHistory he hts
    have hcons : List.Pairwise (fun a b => b.timestamp ≤ a.timestamp)
        (newItem :: getSearchHistory store) :=
      List.pairwise_cons.mpr ⟨hHts, sortDescByKey_pairwise _ _⟩
    have hconsmig : ∀ e ∈ (newItem :: getSearchHistory store).take 50,
        migrateItem e = e := by
      intro e he
      rcases List.mem_cons.mp (List.take_subset _ _ he) with rfl | he2
      · exact migrateItem_of_isSome hfull
      · exact hHmig e he2
    have e2 : getSearchHistory ((newItem :: getSearchHistory store).take 50)
        = (newItem :: getSearchHistory store).take 50 :=
      getSearchHistory_eq_of_invariant hconsmig
        (List.Pairwise.sublist (List.take_sublist _ _) hcons)
    show (getSearchHistory
      ((newItem :: getSearchHistory store).take 50)).head? = some newItem
    rw [e2, show (50 : ℕ) = 49 + 1 from rfl, List.take_succ_cons]
    rfl
  · refine ⟨legacyNutritionInfo s, ?_, rfl, rfl, rfl, rfl, rfl⟩
    unfold getSearchHistory
    simp [migrateItem, hlegNd, hlegS, sortDescByKey, insertDescByKey]

/-- Witness for claim C6 at a concrete store, save, and legacy entry. -/
theorem history_roundtrip_and_migration_witness :
    (getSearchHistory (saveSearch (testHistoryItem 0) [])).head? =
      some (testHistoryItem 0) ∧
    (∃ nd, getSearchHistory [testLegacyItem] =
        [{ testLegacyItem with nutritionData := some nd }] ∧
      nd.macros = testSummary.macros ∧ nd.vitamins = zeroVitamins ∧
      nd.minerals = zeroMinerals ∧
      nd.renalDiet.recommendation = migratedRecommendation ∧
      nd.renalDiet.warnings = testSummary.warnings.getD []) :=
  have h := history_roundtrip_and_migration [] (testHistoryItem 0)
    testLegacyItem testSummary rfl (by simp) rfl rfl
  ⟨h.1, h.2.1⟩

/-- The per-day reduce, fully evaluated: each total field is the sum of the
corresponding per-entry values. -/
theorem foldl_addEntryTotals (l : List FoodLogEntry) : ∀ t : NutrientTotals,
    l.foldl addEntryTotals t =
      ⟨t.weight + (l.map (fun e => e.weight)).sum,
       t.calories + (l.map (fun e => e.calories.getD 0)).sum,
       t.potassium + (l.map (fun e => e.potassium)).sum,
       t.phosphorus + (l.map (fun e => e.phosphorus)).sum,
       t.sodium + (l.map (fun e => e.sodium)).sum⟩ := by
  induction l with
  | nil => intro t; simp
  | cons e es ih => intro t; rw [List.foldl_cons, ih]; simp [addEntryTotals, add_assoc]

/-- Bucket totals are invariant under permutation of the entries. -/
theorem totalsOf_congr_perm {l l' : List FoodLogEntry} (h : l.Perm l') :
    totalsOf l = totalsOf l' := by
  rw [totalsOf, totalsOf, foldl_addEntryTotals, foldl_addEntryTotals]
  simp [(h.map (fun e => e.weight)).sum_eq,
    (h.map (fun e => e.calories.getD 0)).sum_eq,
    (h.map (fun e => e.potassium)).sum_eq,
    (h.map (fun e => e.phosphorus)).sum_eq,
    (h.map (fun e => e.sodium)).sum_eq]

/-- `find?` over buckets built from a key list by a date-preserving
constructor finds the bucket of the first matching key. -/
theorem findBucketByDate (mkB : String → DailyFoodLog)
    (hdate : ∀ k, (mkB k).date = k) (d : String) :
    ∀ keys : List String,
      (keys.map mkB).find? (fun b => b.date = d) =
        if d ∈ keys then some (mkB d) else none
  | [] => by simp
  | k :: ks => by
      by_cases hk : k = d
      · subst hk
        rw [List.map_cons, List.find?_cons_of_pos _ (by simp [hdate])]
        simp
      · rw [List.map_cons, List.find?_cons_of_neg _ (by simp [hdate, hk]),
          findBucketByDate mkB hdate d ks]
        by_cases hd : d ∈ ks
        · rw [if_pos hd, if_pos (List.mem_cons_of_mem k hd)]
        · rw [if_neg hd, if_neg (fun hx => by
            rcases List.mem_cons.mp hx with h1 | h2
            · exact hk h1.symm
            · exact hd h2)]

/-- The bucket of `getDailyFoodLogs` for a date, in closed form. -/
theorem bucketFor_getDailyFoodLogs (m : List FoodLogEntry) (d : String) :
    bucketFor (getDailyFoodLogs m) d =
      if d ∈ m.map (fun e => e.date) then
        some ⟨d, entriesForDate m d, totalsOf (entriesForDate m d)⟩
      else none := by
  unfold bucketFor getDailyFoodLogs
  rw [findBucketByDate
    (fun k => ⟨k, entriesForDate m k, totalsOf (entriesForDate m k)⟩)
    (fun k => rfl) d]
  by_cases hd : d ∈ m.map (fun e => e.date)
  · have hin : d ∈ sortDescByKey (fun dd : String => dd.data)
        (m.map (fun e => e.date)).dedup :=
      (sortDescByKey_perm _ _).mem_iff.mpr (List.mem_dedup.mpr hd)
    rw [if_pos hin, if_pos hd]
  · have hout : d ∉ sortDescByKey (fun dd : String => dd.data)
        (m.map (fun e => e.date)).dedup := fun hx =>
      hd (List.mem_dedup.mp ((sortDescByKey_perm _ _).mem_iff.mp hx))
    rw [if_neg hout, if_neg hd]

/-- The bucket of `getDailyFoodLogsFP` for a date, in closed form. -/
theorem bucketFor_getDailyFoodLogsFP (m : List FoodLogEntry) (d : String) :
    bucketFor (getDailyFoodLogsFP m) d =
      if d ∈ m.map (fun e => e.date) then
        some ⟨d, entriesForDate m d, totalsOfFP (entriesForDate m d)⟩
      else none := by
  unfold bucketFor getDailyFoodLogsFP
  rw [findBucketByDate
    (fun k => ⟨k, entriesForDate m k, totalsOfFP (entriesForDate m k)⟩)
    (fun k => rfl) d]
  by_cases hd : d ∈ m.map (fun e => e.date)
  · have hin : d ∈ sortDescByKey (fun dd : String => dd.data)
        (m.map (fun e => e.date)).dedup :=
      (sortDescByKey_perm _ _).mem_iff.mpr (List.mem_dedup.mpr hd)
    rw [if_pos hin, if_pos hd]
  · have hout : d ∉ sortDescByKey (fun dd : String => dd.data)
        (m.map (fun e => e.date)).dedup := fun hx =>
      hd (List.mem_dedup.mp ((sortDescByKey_perm _ _).mem_iff.mp hx))
    rw [if_neg hout, if_neg hd]

/-- Claim C7 counterexample: with the program's binary64 double addition,
the per-date aggregate totals are not permutation-invariant.  The three
calories values 2^53, 1 and 1 are each exactly representable; summed
large-first the total is 2^53 (each `+ 1` rounds back down, ties-to-even),
summed small-first it is 2^53 + 2. -/
theorem getDailyFoodLogsFP_totals_not_perm_invariant :
    fpLogA.Perm fpLogB ∧
    ¬ (∀ d, (bucketFor (getDailyFoodLogsFP fpLogA) d).map
          (fun b => b.totalNutrients) =
        (bucketFor (getDailyFoodLogsFP fpLogB) d).map
          (fun b => b.totalNutrients)) := by
  refine ⟨by decide, fun h => ?_⟩
  have h1 := h "2024-01-01"
  rw [show (bucketFor (getDailyFoodLogsFP fpLogA) "2024-01-01").map
        (fun b => b.totalNutrients) =
      some ⟨0, 9007199254740992, 0, 0, 0⟩ from rfl,
    show (bucketFor (getDailyFoodLogsFP fpLogB) "2024-01-01").map
        (fun b => b.totalNutrients) =
      some ⟨0, 9007199254740994, 0, 0, 0⟩ from rfl] at h1
  exact absurd h1 (by decide)

/-- Claim C7 amended: for every permutation of the stored log entries the
program produces buckets for the same dates, sorted descending by date
string, and for each date the aggregate totals agree when computed as exact
elementwise sums (missing calories counted as 0); the program's own
binary64 totals agree with these exact sums only up to floating-point
rounding, so their permutation-invariance fails in general (see the
counterexample). -/
theorem getDailyFoodLogs_perm_exact_and_sorted (l l' : List FoodLogEntry)
    (hperm : l.Perm l') :
    (∀ d, (bucketFor (getDailyFoodLogsFP l) d).map (fun b => b.date) =
          (bucketFor (getDailyFoodLogsFP l') d).map (fun b => b.date)) ∧
    (∀ d, (bucketFor (getDailyFoodLogs l) d).map (fun b => b.totalNutrients) =
          (bucketFor (getDailyFoodLogs l') d).map (fun b => b.totalNutrients)) ∧
    List.Pairwise (fun a b => b.date.data ≤ a.date.data)
      (getDailyFoodLogsFP l) := by
  refine ⟨?_, ?_, ?_⟩
  · intro d
    rw [bucketFor_getDailyFoodLogsFP l d, bucketFor_getDailyFoodLogsFP l' d]
    by_cases hd : d ∈ l.map (fun e => e.date)
    · rw [if_pos hd, if_pos ((hperm.map (fun e => e.date)).mem_iff.mp hd)]
      rfl
    · rw [if_neg hd,
        if_neg (fun hx => hd ((hperm.map (fun e => e.date)).mem_iff.mpr hx))]
  · intro d
    rw [bucketFor_getDailyFoodLogs l d, bucketFor_getDailyFoodLogs l' d]
    by_cases hd : d ∈ l.map (fun e => e.date)
    · have hd' : d ∈ l'.map (fun e => e.date) :=
        (hperm.map (fun e => e.date)).mem_iff.mp hd
      rw [if_pos hd, if_pos hd']
      simp only [Option.map_some']
      have hfp : (entriesForDate l d).Perm (entriesForDate l' d) := by
        unfold entriesForDate
        exact hperm.filter (fun e => decide (e.date = d))
      exact congrArg some (totalsOf_congr_perm hfp)
    · have hd' : d ∉ l'.map (fun e => e.date) := fun hx =>
        hd ((hperm.map (fun e => e.date)).mem_iff.mpr hx)
      rw [if_neg hd, if_neg hd']
  · unfold getDailyFoodLogsFP
    rw [List.pairwise_map]
    exact sortDescByKey_pairwise _ _

/-- Witness for the amended claim C7: a concrete log and a permutation of
it produce the same bucket date and the same exact-sum totals for a
concrete date. -/
theorem getDailyFoodLogs_perm_exact_and_sorted_witness :
    (bucketFor (getDailyFoodLogs testLogA) "2024-01-02").map
      (fun b => b.totalNutrients) =
    (bucketFor (getDailyFoodLogs testLogB) "2024-01-02").map
      (fun b => b.totalNutrients) ∧
    (bucketFor (getDailyFoodLogsFP testLogA) "2024-01-02").map
      (fun b => b.date) =
    (bucketFor (getDailyFoodLogsFP testLogB) "2024-01-02").map
      (fun b => b.date) :=
  have h := getDailyFoodLogs_perm_exact_and_sorted testLogA testLogB (by decide)
  ⟨h.2.1 "2024-01-02", h.1 "2024-01-02"⟩

/-- Claim C8: `formatDate` classifies by exact calendar-day difference,
computed from local midnights (the offset cancels, so the millisecond
floor-division is exact): same local day gives "Today", one day earlier
"Yesterday", seven days earlier "7 days ago", and eight or more days
earlier the short date format. -/
theorem formatDate_boundaries (ey em ed ny nm nd offsetMin : ℤ) :
    (daysFromCivil ny nm nd - daysFromCivil ey em ed = 0 →
      formatDate ey em ed ny nm nd offsetMin = "Today") ∧
    (daysFromCivil ny nm nd - daysFromCivil ey em ed = 1 →
      formatDate ey em ed ny nm nd offsetMin = "Yesterday") ∧
    (daysFromCivil ny nm nd - daysFromCivil ey em ed = 7 →
      formatDate ey em ed ny nm nd offsetMin = "7 days ago") ∧
    (8 ≤ daysFromCivil ny nm nd - daysFromCivil ey em ed →
      formatDate ey em ed ny nm nd offsetMin = shortDateString ey em ed) := by
  have hdiff : (daysFromCivil ny nm nd * msPerDay - offsetMin * 60000 -
      (daysFromCivil ey em ed * msPerDay - offsetMin * 60000)).fdiv msPerDay
      = daysFromCivil ny nm nd - daysFromCivil ey em ed := by
    have harith : daysFromCivil ny nm nd * msPerDay - offsetMin * 60000 -
        (daysFromCivil ey em ed * msPerDay - offsetMin * 60000)
        = (daysFromCivil ny nm nd - daysFromCivil ey em ed) * msPerDay := by
      ring
    rw [harith, Int.mul_fdiv_cancel _ (by norm_num [msPerDay])]
  refine ⟨fun h => ?_, fun h => ?_, fun h => ?_, fun h => ?_⟩
  · simp only [formatDate]
    rw [hdiff, h, if_pos rfl]
  · simp only [formatDate]
    rw [hdiff, h, if_neg (by norm_num), if_pos rfl]
  · simp only [formatDate]
    rw [hdiff, h, if_neg (by norm_num), if_neg (by norm_num),
      if_neg (by norm_num), if_pos (by norm_num)]
    decide
  · simp only [formatDate]
    rw [hdiff, if_neg (by omega), if_neg (by omega), if_neg (by omega),
      if_neg (by omega)]

/-- Witness for claim C8 at concrete dates (offset 330 minutes, an IST-like
timezone): same day, one day, seven days, and eight days back. -/
theorem formatDate_boundaries_witness :
    formatDate 2024 1 8 2024 1 8 330 = "Today" ∧
    formatDate 2024 1 7 2024 1 8 330 = "Yesterday" ∧
    formatDate 2024 1 1 2024 1 8 330 = "7 days ago" ∧
    formatDate 2023 12 31 2024 1 8 330 = shortDateString 2023 12 31 :=
  ⟨(formatDate_boundaries 2024 1 8 2024 1 8 330).1 (by decide),
   (formatDate_boundaries 2024 1 7 2024 1 8 330).2.1 (by decide),
   (formatDate_boundaries 2024 1 1 2024 1 8 330).2.2.1 (by decide),
   (formatDate_boundaries 2023 12 31 2024 1 8 330).2.2.2 (by decide)⟩

/-- The intake reduce, fully evaluated: each field is the sum of the
corresponding per-entry values. -/
theorem foldl_addIntake (l : List FoodLogEntry) : ∀ t : NutrientQuad,
    l.foldl addIntake t =
      ⟨t.calories + (l.map (fun e => e.calories.getD 0)).sum,
       t.potassium + (l.map (fun e => e.potassium)).sum,
       t.phosphorus + (l.map (fun e => e.phosphorus)).sum,
       t.sodium + (l.map (fun e => e.sodium)).sum⟩ := by
  induction l with
  | nil => intro t; simp
  | cons e es ih => intro t; rw [List.foldl_cons, ih]; simp [addIntake, add_assoc]

/-- Claim C9: the gateway's nutrition context satisfies
`remaining = max 0 (limit - intake)` elementwise, where the intake is the
sum over the entries logged for the context's today (missing calories
counted as 0); in particular, with 1800 mg potassium logged today and a
2000 mg limit, 200 mg remain. -/
theorem getTodayNutritionContext_remaining (store : List FoodLogEntry)
    (limits : NutrientQuad) (nowMs : ℤ) :
    ((getTodayNutritionContext store limits nowMs).remaining.calories =
      max 0 (limits.calories -
        ((entriesForDate store (isoDateString nowMs)).map
          (fun e => e.calories.getD 0)).sum) ∧
     (getTodayNutritionContext store limits nowMs).remaining.potassium =
      max 0 (limits.potassium -
        ((entriesForDate store (isoDateString nowMs)).map
          (fun e => e.potassium)).sum) ∧
     (getTodayNutritionContext store limits nowMs).remaining.phosphorus =
      max 0 (limits.phosphorus -
        ((entriesForDate store (isoDateString nowMs)).map
          (fun e => e.phosphorus)).sum) ∧
     (getTodayNutritionContext store limits nowMs).remaining.sodium =
      max 0 (limits.sodium -
        ((entriesForDate store (isoDateString nowMs)).map
          (fun e => e.sodium)).sum)) ∧
    (getTodayNutritionContext potassiumScenarioStore defaultDailyLimits
      0).remaining.potassium = 200 := by
  constructor
  · refine ⟨?_, ?_, ?_, ?_⟩ <;>
      simp [getTodayNutritionContext, intakeOf, foldl_addIntake]
  · have htoday : isoDateString 0 = "1970-01-01" := by decide
    have hfilter : entriesForDate potassiumScenarioStore (isoDateString 0) =
        potassiumScenarioStore := by
      rw [htoday]
      rfl
    simp only [getTodayNutritionContext, hfilter, intakeOf, foldl_addIntake]
    norm_num [potassiumScenarioStore, defaultDailyLimits, max_def]

/-- Claim C10: `setDailyLimits` with a partial object updates exactly the
present keys and leaves the others unchanged, and `getDailyLimits` returns
a fresh copy: mutating the returned object never changes the limits the
service observes, nor what a later `getDailyLimits` returns. -/
theorem dailyLimits_patch_and_copy (h : LimitsHeap) (p : LimitsPatch)
    (v : NutrientQuad) (hinv : h.serviceRef < h.next) :
    ((∀ c, p.calories = some c →
        (readServiceLimits (setDailyLimits p h)).calories = c) ∧
     (p.calories = none →
        (readServiceLimits (setDailyLimits p h)).calories =
          (readServiceLimits h).calories) ∧
     (∀ c, p.potassium = some c →
        (readServiceLimits (setDailyLimits p h)).potassium = c) ∧
     (p.potassium = none →
        (readServiceLimits (setDailyLimits p h)).potassium =
          (readServiceLimits h).potassium) ∧
     (∀ c, p.phosphorus = some c →
        (readServiceLimits (setDailyLimits p h)).phosphorus = c) ∧
     (p.phosphorus = none →
        (readServiceLimits (setDailyLimits p h)).phosphorus =
          (readServiceLimits h).phosphorus) ∧
     (∀ c, p.sodium = some c →
        (readServiceLimits (setDailyLimits p h)).sodium = c) ∧
     (p.sodium = none →
        (readServiceLimits (setDailyLimits p h)).sodium =
          (readServiceLimits h).sodium)) ∧
    ((getDailyLimits h).1 ≠ h.serviceRef ∧
     (getDailyLimits h).2.cells (getDailyLimits h).1 = readServiceLimits h ∧
     readServiceLimits
        (writeCell (getDailyLimits h).2 (getDailyLimits h).1 v) =
       readServiceLimits h ∧
     (getDailyLimits
        (writeCell (getDailyLimits h).2 (getDailyLimits h).1 v)).2.cells
        (getDailyLimits
          (writeCell (getDailyLimits h).2 (getDailyLimits h).1 v)).1 =
       readServiceLimits h) := by
  have hne : h.serviceRef ≠ h.next := Nat.ne_of_lt hinv
  have hset : readServiceLimits (setDailyLimits p h) =
      assignLimits (readServiceLimits h) p := by
    simp [readServiceLimits, setDailyLimits, writeCell]
  constructor
  · refine ⟨fun c hc => ?_, fun hc => ?_, fun c hc => ?_, fun hc => ?_,
      fun c hc => ?_, fun hc => ?_, fun c hc => ?_, fun hc => ?_⟩ <;>
      rw [hset] <;> simp [assignLimits, hc]
  · refine ⟨?_, ?_, ?_, ?_⟩
    · exact fun hx => hne (hx.symm)
    · simp [getDailyLimits]
    · simp [getDailyLimits, writeCell, readServiceLimits, hne]
    · simp [getDailyLimits, writeCell, readServiceLimits, hne]

/-- Witness for claim C10 at a concrete heap and patch: the present key is
updated, an absent key is preserved, and mutating the returned copy leaves
the service's limits unchanged. -/
theorem dailyLimits_patch_and_copy_witness :
    (readServiceLimits
      (setDailyLimits ⟨some 1500, none, none, none⟩ testHeap)).calories = 1500 ∧
    (readServiceLimits
      (setDailyLimits ⟨some 1500, none, none, none⟩ testHeap)).potassium =
      (readServiceLimits testHeap).potassium ∧
    readServiceLimits (writeCell (getDailyLimits testHeap).2
      (getDailyLimits testHeap).1 ⟨0, 0, 0, 0⟩) =
      readServiceLimits testHeap :=
  have h := dailyLimits_patch_and_copy testHeap ⟨some 1500, none, none, none⟩
    ⟨0, 0, 0, 0⟩ (by decide)
  ⟨h.1.1 1500 rfl, h.1.2.2.2.1 rfl, h.2.2.2.1⟩

end NutriScan
